import Mathlib

/-!
# Verification of the pdf-parser content pipeline (`src/main.py`)

A shallow embedding of the pure content-analysis core of the `PDFParser`
class: text cleaning (`clean_text`), heading classification
(`extract_sections_and_subsections`), paragraph segmentation
(`analyze_content_blocks`), table post-processing
(`extract_tables_from_page`), chart detection (`detect_charts_in_page`)
and the per-page context propagation of `parse_pdf`.

Strings are modelled as `List Char`; geometric coordinates as `ℚ`
(the source manipulates floats, but every property considered only
involves exact decimal values).  The external services (pdfplumber
page decoding, camelot table extraction) appear as input data: a page
carries its character list, image list and the outcome of the camelot
call (`Except` models the raised-or-returned behaviour).
-/

namespace PdfParser

/-! ## Character classes (Python `\s`, `\d`, `[A-Z]`, `[a-z]`) -/

/-- Python's `\s` on ASCII text: space, tab, newline, carriage return,
vertical tab, form feed. -/
def isSpaceChar (c : Char) : Bool :=
  c = ' ' || c = '\t' || c = '\n' || c = '\r' || c = '\x0b' || c = '\x0c'

/-- Regex class `[0-9]` (`\d` on ASCII). -/
def isDigitCh (c : Char) : Bool := '0' ≤ c && c ≤ '9'

/-- Regex class `[A-Z]`. -/
def isUpperAZ (c : Char) : Bool := 'A' ≤ c && c ≤ 'Z'

/-- Regex class `[a-z]`. -/
def isLowerAZ (c : Char) : Bool := 'a' ≤ c && c ≤ 'z'

/-- Regex class `[A-Za-z]`. -/
def isAlphaAZ (c : Char) : Bool := isUpperAZ c || isLowerAZ c

/-- Regex class `[A-Za-z\s]`. -/
def isAlphaSpace (c : Char) : Bool := isAlphaAZ c || isSpaceChar c

/-- Regex class `[A-Z\s]`. -/
def isUpperSpace (c : Char) : Bool := isUpperAZ c || isSpaceChar c

/-- Python `str.strip()`: drop leading and trailing whitespace. -/
def stripChars (s : List Char) : List Char :=
  ((s.dropWhile isSpaceChar).reverse.dropWhile isSpaceChar).reverse

/-! ## `clean_text` (src/main.py lines 81-92)

```python
if not text: return ""
text = re.sub(r'\s+', ' ', text)
text = re.sub(r'\n\s*\d+\s*\n', '\n', text)
text = re.sub(r'\n\s*Page \d+ of \d+\s*\n', '\n', text, re.IGNORECASE)
return text.strip()
```

Note the third `re.sub` passes `re.IGNORECASE` (= 2) positionally,
so it is the `count` argument: at most two case-sensitive
replacements. -/

/-- Embedding of `re.sub(r'\s+', ' ', text)`: every maximal whitespace run becomes a
single space.  The boolean accumulator records whether the previous
input character was whitespace (i.e. whether we are inside a run whose
space has already been emitted). -/
def collapseWsAux : Bool → List Char → List Char
  | _, [] => []
  | prevWs, c :: t =>
    if isSpaceChar c then
      if prevWs then collapseWsAux true t
      else ' ' :: collapseWsAux true t
    else c :: collapseWsAux false t

def collapseWs (s : List Char) : List Char := collapseWsAux false s

/-- Given an all-whitespace run `w`, the remainder after the last `'\n'`
in `w` (the greedy `\s*` backtracks to leave a final literal `\n`
matchable); `none` when `w` contains no newline. -/
def splitAfterLastNewline : List Char → Option (List Char)
  | [] => none
  | c :: t =>
    match splitAfterLastNewline t with
    | some r => some r
    | none => if c = '\n' then some t else none

/-- Anchored match of `\n\s*\d+\s*\n` at the head of `s`; returns the
remainder after the match. -/
def matchNumFooter : List Char → Option (List Char)
  | [] => none
  | c :: r =>
    if c = '\n' then
      let r1 := r.dropWhile isSpaceChar
      let ds := r1.takeWhile isDigitCh
      if ds = [] then none
      else
        let r2 := r1.dropWhile isDigitCh
        match splitAfterLastNewline (r2.takeWhile isSpaceChar) with
        | some tail => some (tail ++ r2.dropWhile isSpaceChar)
        | none => none
    else none

/-- Embedding of `re.sub(r'\n\s*\d+\s*\n', '\n', text)`: left-to-right scan, each
match replaced by `'\n'`, scanning resuming after the match.  The fuel
argument (always called with the input length) bounds the recursion;
every recursive call is on a strictly shorter list, so the initial fuel
is never exhausted. -/
def subNumGo : ℕ → List Char → List Char
  | 0, s => s
  | _ + 1, [] => []
  | fuel + 1, c :: t =>
    match matchNumFooter (c :: t) with
    | some rest => '\n' :: subNumGo fuel rest
    | none => c :: subNumGo fuel t

def subNum (s : List Char) : List Char := subNumGo s.length s

/-- Anchored match of `\n\s*Page \d+ of \d+\s*\n` at the head of `s`
(case-sensitive, since `re.IGNORECASE` was passed as `count`, not as
`flags`); returns the remainder after the match. -/
def matchPageFooter : List Char → Option (List Char)
  | [] => none
  | c :: r =>
    if c = '\n' then
      match r.dropWhile isSpaceChar with
      | 'P' :: 'a' :: 'g' :: 'e' :: ' ' :: r2 =>
        let ds := r2.takeWhile isDigitCh
        if ds = [] then none
        else
          match r2.dropWhile isDigitCh with
          | ' ' :: 'o' :: 'f' :: ' ' :: r3 =>
            let ds2 := r3.takeWhile isDigitCh
            if ds2 = [] then none
            else
              let r4 := r3.dropWhile isDigitCh
              match splitAfterLastNewline (r4.takeWhile isSpaceChar) with
              | some tail => some (tail ++ r4.dropWhile isSpaceChar)
              | none => none
          | _ => none
      | _ => none
    else none

/-- Embedding of `re.sub(r'\n\s*Page \d+ of \d+\s*\n', '\n', text, re.IGNORECASE)`:
because `re.IGNORECASE` (= 2) lands in the `count` slot, at most two
replacements are made; the fuel plays the same role as in `subNumGo`. -/
def subPageGo : ℕ → ℕ → List Char → List Char
  | 0, _, s => s
  | _ + 1, _, [] => []
  | _ + 1, 0, s => s
  | fuel + 1, count + 1, c :: t =>
    match matchPageFooter (c :: t) with
    | some rest => '\n' :: subPageGo fuel count rest
    | none => c :: subPageGo fuel (count + 1) t

def subPage (s : List Char) : List Char := subPageGo s.length 2 s

/-- Embedding of `PDFParser.clean_text` (src/main.py lines 81-92). -/
def cleanText (s : List Char) : List Char :=
  if s = [] then []
  else stripChars (subPage (subNum (collapseWs s)))

/-! ## `extract_sections_and_subsections` (src/main.py lines 41-79)

The method tries three section patterns and three sub-section patterns
per line, by `re.match`, on each of the first five entries of
`text.split('\n')` (the raw split, before blank-line skipping).  Each
matcher below implements the exact anchored-backtracking semantics of
its regex and returns the captured group. -/

/-- Embedding of `re.match(r'^\s*(\d+\.?\s*[A-Z][A-Za-z\s]+)', line)`. -/
def matchSecNum (s : List Char) : Option (List Char) :=
  let s1 := s.dropWhile isSpaceChar
  let ds := s1.takeWhile isDigitCh
  if ds = [] then none
  else
    let r1 := s1.dropWhile isDigitCh
    let dotRest : List Char × List Char :=
      match r1 with
      | '.' :: t => (['.'], t)
      | _ => ([], r1)
    let sp := dotRest.2.takeWhile isSpaceChar
    match dotRest.2.dropWhile isSpaceChar with
    | c :: t =>
      if isUpperAZ c then
        let body := t.takeWhile isAlphaSpace
        if body = [] then none else some (ds ++ dotRest.1 ++ sp ++ c :: body)
      else none
    | [] => none

/-- Embedding of `re.match(r'^\s*([A-Z][A-Z\s]+)\s*$', line)`: the whole line (past
leading whitespace) is an upper-case/whitespace run of length at least
two starting with a capital. -/
def matchAllCaps (s : List Char) : Option (List Char) :=
  match s.dropWhile isSpaceChar with
  | c :: t =>
    if isUpperAZ c && !t.isEmpty && t.all isUpperSpace then some (c :: t) else none
  | [] => none

/-- Embedding of `re.match(r'^\s*([A-Z][a-z][A-Za-z\s]+)\s*$', line)`: a Title-Case
line (capital, lower-case, then letters/whitespace to the end). -/
def matchTitleLine (s : List Char) : Option (List Char) :=
  match s.dropWhile isSpaceChar with
  | c1 :: c2 :: t =>
    if isUpperAZ c1 && isLowerAZ c2 && !t.isEmpty && t.all isAlphaSpace then
      some (c1 :: c2 :: t)
    else none
  | _ => none

/-- Embedding of `re.match(r'^\s*(\d+\.\d+\.?\s*[A-Za-z][A-Za-z\s]+)', line)`. -/
def matchSubNum (s : List Char) : Option (List Char) :=
  let s1 := s.dropWhile isSpaceChar
  let d1 := s1.takeWhile isDigitCh
  if d1 = [] then none
  else
    match s1.dropWhile isDigitCh with
    | '.' :: r2 =>
      let d2 := r2.takeWhile isDigitCh
      if d2 = [] then none
      else
        let r3 := r2.dropWhile isDigitCh
        let dotRest : List Char × List Char :=
          match r3 with
          | '.' :: t => (['.'], t)
          | _ => ([], r3)
        let sp := dotRest.2.takeWhile isSpaceChar
        match dotRest.2.dropWhile isSpaceChar with
        | c :: t =>
          if isAlphaAZ c then
            let body := t.takeWhile isAlphaSpace
            if body = [] then none
            else some (d1 ++ '.' :: d2 ++ dotRest.1 ++ sp ++ c :: body)
          else none
        | [] => none
    | _ => none

/-- Embedding of `re.match(r'^\s*([a-z]\.\s*[A-Za-z][A-Za-z\s]+)', line)`. -/
def matchListMarker (s : List Char) : Option (List Char) :=
  match s.dropWhile isSpaceChar with
  | c :: '.' :: r =>
    if isLowerAZ c then
      let sp := r.takeWhile isSpaceChar
      match r.dropWhile isSpaceChar with
      | d :: t =>
        if isAlphaAZ d then
          let body := t.takeWhile isAlphaSpace
          if body = [] then none else some (c :: '.' :: (sp ++ d :: body))
        else none
      | [] => none
    else none
  | _ => none

/-- Python truthiness of an `Optional[str]`: `None` and `""` are falsy. -/
def pyTruthy : Option (List Char) → Bool
  | none => false
  | some s => !s.isEmpty

/-- The three `section_patterns` tried in order, first match wins;
the captured group is `.strip()`-ed (line 69). -/
def pickSection (line : List Char) : Option (List Char) :=
  match matchSecNum line with
  | some g => some (stripChars g)
  | none =>
    match matchAllCaps line with
    | some g => some (stripChars g)
    | none =>
      match matchTitleLine line with
      | some g => some (stripChars g)
      | none => none

/-- The three `subsection_patterns` tried in order, first match wins. -/
def pickSubSection (line : List Char) : Option (List Char) :=
  match matchSubNum line with
  | some g => some (stripChars g)
  | none =>
    match matchListMarker line with
    | some g => some (stripChars g)
    | none =>
      match matchTitleLine line with
      | some g => some (stripChars g)
      | none => none

/-- The body of the `for line in lines[:5]` loop (lines 60-77): strip,
skip blanks, set `section` when still falsy, then set `sub_section`
when it is falsy and `section` (as updated by this very line) is
truthy. -/
def lineStep (st : Option (List Char) × Option (List Char)) (rawLine : List Char) :
    Option (List Char) × Option (List Char) :=
  let line := stripChars rawLine
  if line = [] then st
  else
    let sec :=
      if pyTruthy st.1 then st.1
      else
        match pickSection line with
        | some g => some g
        | none => st.1
    let sub :=
      if pyTruthy st.2 then st.2
      else
        if pyTruthy sec then
          match pickSubSection line with
          | some g => some g
          | none => st.2
        else st.2
    (sec, sub)

/-- Embedding of `PDFParser.extract_sections_and_subsections` (lines 41-79): the
loop runs over `lines[:5]` — the first five entries of the raw split,
blank lines included. -/
def extractSectionsAndSubsections (text : List Char) :
    Option (List Char) × Option (List Char) :=
  ((text.splitOn '\n').take 5).foldl lineStep (none, none)

/-- The heading scan as the specification words it: the limit of five
applies to the non-empty trimmed lines, so blank lines do not consume
slots.  Used to compare the code against claim C7. -/
def specExtractFirstFiveNonEmpty (text : List Char) :
    Option (List Char) × Option (List Char) :=
  (((text.splitOn '\n').filter (fun l => !(stripChars l).isEmpty)).take 5).foldl
    lineStep (none, none)

/-! ## Content blocks and paragraph segmentation
(`analyze_content_blocks`, src/main.py lines 178-237) -/

inductive BlockType where
  | paragraph
  | table
  | chart
deriving DecidableEq

/-- One content-block dictionary.  Paragraph blocks use `text`; table
blocks use `description` and `tableData`; chart blocks use
`description`, `tableData` (always empty) and `dims`; unused fields
hold their empty value. -/
structure Block where
  btype : BlockType
  sectionName : Option (List Char)
  subSection : Option (List Char)
  text : List Char
  description : List Char
  tableData : List (List (List Char))
  dims : Option (ℚ × ℚ)
deriving DecidableEq

/-- A pdfplumber character dict: its text and vertical start `y0`. -/
structure PChar where
  text : List Char
  y0 : ℚ
deriving DecidableEq

/-- Python `round(y, 1)`, on exact rationals.  (Python's float `round`
resolves exact ties to the even digit; no value considered here sits on
a tie, so half-up rounding is an adequate model.) -/
def round1 (q : ℚ) : ℚ := (round (q * 10) : ℤ) / 10

/-- The keys of the `lines` dict (line 188-193): distinct rounded
`y0` values in first-occurrence order. -/
def lineKeys (chars : List PChar) : List ℚ :=
  chars.foldl (fun ks c => let k := round1 c.y0; if k ∈ ks then ks else ks ++ [k]) []

def insertDesc (k : ℚ) : List ℚ → List ℚ
  | [] => [k]
  | x :: xs => if x ≤ k then k :: x :: xs else x :: insertDesc k xs

/-- Embedding of `sorted(lines.items(), key=lambda x: -x[0])` (line 196): keys in
descending order. -/
def sortDesc (l : List ℚ) : List ℚ := l.foldr insertDesc []

/-- Embedding of `''.join(char['text'] for char in chars).strip()` for the line at
rounded coordinate `y` (line 202). -/
def lineTextAt (chars : List PChar) (y : ℚ) : List Char :=
  stripChars ((chars.filter (fun c => round1 c.y0 = y)).foldl (fun acc c => acc ++ c.text) [])

/-- Flushing the running paragraph buffer (lines 207-219 and 225-235):
a block is emitted only when the buffer is non-empty and the stripped
`' '.join` of its lines is longer than 10 characters. -/
def flushBuf (buf : List (List Char)) : Option Block :=
  if buf = [] then none
  else
    let ptext := List.intercalate [' '] buf
    if 10 < (stripChars ptext).length then
      let ss := extractSectionsAndSubsections ptext
      some ⟨BlockType.paragraph, ss.1, ss.2, cleanText ptext, [], [], none⟩
    else none

/-- The walker state: blocks emitted so far, the running paragraph
buffer (`current_paragraph`) and the last line's rounded coordinate
(`current_y_group`). -/
structure SegState where
  blocks : List Block
  buf : List (List Char)
  curY : Option ℚ
deriving DecidableEq

def flushState (s : SegState) : SegState :=
  ⟨s.blocks ++ (flushBuf s.buf).toList, [], s.curY⟩

/-- One iteration of the `for y, chars in sorted_lines` loop (lines
201-222): skip blank lines; flush when the vertical gap to the previous
line exceeds 20 units; append the line and remember its coordinate. -/
def segStep (chars : List PChar) (s : SegState) (y : ℚ) : SegState :=
  let lt := lineTextAt chars y
  if lt = [] then s
  else
    let s1 :=
      match s.curY with
      | some y0 => if 20 < |y - y0| then flushState s else s
      | none => s
    ⟨s1.blocks, s1.buf ++ [lt], some y⟩

/-- Embedding of `PDFParser.analyze_content_blocks` (lines 178-237). -/
def analyzeContentBlocks (chars : List PChar) : List Block :=
  if chars = [] then []
  else
    let final := (sortDesc (lineKeys chars)).foldl (segStep chars) ⟨[], [], none⟩
    final.blocks ++ (flushBuf final.buf).toList

/-! ## `extract_tables_from_page` (src/main.py lines 94-137)

The camelot call is the external service; its outcome for a page is an
input: `Except.error` models a raised exception, `Except.ok` the list
of detected tables (each as its DataFrame's rows of cell strings). -/

structure RawTable where
  rows : List (List (List Char))
deriving DecidableEq

def natChars (n : ℕ) : List Char := (Nat.repr n).data

def tableDescription (idx pageNum : ℕ) : List Char :=
  "Table ".toList ++ natChars idx ++ " from page ".toList ++ natChars pageNum

/-- The `for i, table in enumerate(camelot_tables)` loop (lines
113-132): skip empty DataFrames, drop fully-blank rows, keep tables
with at least one surviving row. -/
def processCamelotTables (ts : List RawTable) (pageNum : ℕ) : List Block :=
  ts.enum.filterMap fun it =>
    if it.2.rows = [] then none
    else
      let tableData := it.2.rows.filter fun row => row.any fun cell => !(stripChars cell).isEmpty
      if tableData = [] then none
      else some ⟨BlockType.table, none, none, [], tableDescription (it.1 + 1) pageNum, tableData, none⟩

def tableWarning (pageNum : ℕ) (e : List Char) : List Char :=
  "Could not extract tables from page ".toList ++ natChars pageNum ++ ": ".toList ++ e

/-- Embedding of `PDFParser.extract_tables_from_page` (lines 94-137): the whole body
sits in a `try`, so a service failure is caught inside the method and
yields the empty table list plus one `logger.warning` message. -/
def extractTablesFromPage (camelotResult : Except (List Char) (List RawTable))
    (pageNum : ℕ) : List Block × List (List Char) :=
  match camelotResult with
  | Except.ok ts => (processCamelotTables ts pageNum, [])
  | Except.error e => ([], [tableWarning pageNum e])

/-! ## `detect_charts_in_page` (src/main.py lines 139-176) -/

/-- A pdfplumber image dict; every geometric key is read with
`.get(key, default)`, so each field is optional. -/
structure PImage where
  width : Option ℚ
  height : Option ℚ
  x0 : Option ℚ
  y0 : Option ℚ
  x1 : Option ℚ
  y1 : Option ℚ
deriving DecidableEq

def chartLabel (idx : ℕ) : List Char := "Chart/Image ".toList ++ natChars idx

/-- Embedding of `PDFParser.detect_charts_in_page` (lines 139-176): keep images with
width and height above 100; the caption candidate concatenates the page
characters whose `y0` lies strictly within 50 units of the image's `y1`
coordinate. -/
def detectChartsInPage (images : List PImage) (chars : List PChar) : List Block :=
  images.enum.filterMap fun iimg => show Option Block from
    let img := iimg.2
    let width := img.width.getD 0
    let height := img.height.getD 0
    if 100 < width ∧ 100 < height then
      let y1 := img.y1.getD height
      let nearbyText : List Char :=
        (chars.filter fun c => |c.y0 - y1| < 50).foldl (fun acc c => acc ++ c.text) []
      let description :=
        if nearbyText = [] then chartLabel (iimg.1 + 1)
        else chartLabel (iimg.1 + 1) ++ " - ".toList ++ nearbyText.take 100 ++ "...".toList
      some ⟨BlockType.chart, none, none, [], description, [], some (width, height)⟩
    else none

/-! ## Context propagation and `parse_pdf` (src/main.py lines 239-291) -/

def withContext (b : Block) (sec sub : Option (List Char)) : Block :=
  ⟨b.btype, sec, sub, b.text, b.description, b.tableData, b.dims⟩

/-- The `for block in reversed(text_blocks)` loop (lines 262-268 and
276-281): walk the page's paragraph blocks backwards and copy heading
context from the first block whose `section` is truthy. -/
def assignContext (textBlocks : List Block) (b : Block) : Block :=
  match textBlocks.reverse.find? (fun p => pyTruthy p.sectionName) with
  | some p => withContext b p.sectionName p.subSection
  | none => b

/-- One page's input data: its characters, images and the outcome of
the camelot call. -/
structure PageData where
  chars : List PChar
  images : List PImage
  camelotResult : Except (List Char) (List RawTable)

structure PageResult where
  pageNumber : ℕ
  content : List Block
deriving DecidableEq

/-- The body of the per-page loop of `parse_pdf` (lines 249-288):
paragraphs, then context-assigned tables, then context-assigned
charts. -/
def parsePage (pageNum : ℕ) (pd : PageData) : PageResult :=
  let textBlocks := analyzeContentBlocks pd.chars
  let tables := (extractTablesFromPage pd.camelotResult pageNum).1
  let tablesCtx := tables.map (assignContext textBlocks)
  let charts := detectChartsInPage pd.images pd.chars
  let chartsCtx := charts.map (assignContext textBlocks)
  ⟨pageNum, textBlocks ++ tablesCtx ++ chartsCtx⟩

/-- Embedding of `PDFParser.parse_pdf` (lines 239-291), over the decoded document:
pages processed strictly in order, numbered from 1. -/
def parsePdf (doc : List PageData) : List PageResult :=
  doc.enum.map fun ipd => parsePage (ipd.1 + 1) ipd.2

/-! ## Concrete inputs used by the counterexamples and witnesses -/

/-- A page whose single line contains an internal whitespace run:
raw stripped length 11, cleaned length 4. -/
def c2Page : List PChar := [⟨"a        bc".toList, 100⟩]

/-- Two lines at vertical coordinates 100 and 95 (gap 5). -/
def mergePage : List PChar :=
  [⟨"abcdefghijkl".toList, 100⟩, ⟨"mnopqrstuvwx".toList, 95⟩]

/-- Two lines at vertical coordinates 100 and 70 (gap 30). -/
def splitPage : List PChar :=
  [⟨"abcdefghijkl".toList, 100⟩, ⟨"mnopqrstuvwx".toList, 70⟩]

/-- A 150×150 image spanning y0 = 0 (bottom) to y1 = 150 (top). -/
def chartImage : PImage := ⟨some 150, some 150, some 0, some 0, some 150, some 150⟩

/-- One character at the image's bottom edge and one at its top edge. -/
def chartChars : List PChar := [⟨"B".toList, 0⟩, ⟨"T".toList, 150⟩]

/-- Paragraph blocks with sections A, none, B (the spec's propagation
example). -/
def paraA : Block := ⟨BlockType.paragraph, some "A".toList, none, "first".toList, [], [], none⟩
def paraNone : Block := ⟨BlockType.paragraph, none, none, "second".toList, [], [], none⟩
def paraB : Block :=
  ⟨BlockType.paragraph, some "B".toList, some "B.1".toList, "third".toList, [], [], none⟩

def exampleTable : Block :=
  ⟨BlockType.table, none, none, [], "Table 1 from page 1".toList, [["x".toList]], none⟩

/-- A three-page document whose second page's table service raises. -/
def failingDoc : List PageData :=
  [⟨mergePage, [], Except.ok []⟩,
   ⟨mergePage, [chartImage], Except.error "boom".toList⟩,
   ⟨splitPage, [], Except.ok [⟨[["h".toList]]⟩]⟩]

/-- Two adjacent characters are not both whitespace. -/
def noWsPair (a b : Char) : Prop := ¬(isSpaceChar a = true ∧ isSpaceChar b = true)

/-! ## Lemmas about the cleaner -/

theorem collapseWsAux_nil (b : Bool) : collapseWsAux b [] = [] := rfl

theorem collapseWsAux_cons_ws_true {c : Char} {t : List Char} (h : isSpaceChar c = true) :
    collapseWsAux true (c :: t) = collapseWsAux true t := by
  simp [collapseWsAux, h]

theorem collapseWsAux_cons_ws_false {c : Char} {t : List Char} (h : isSpaceChar c = true) :
    collapseWsAux false (c :: t) = ' ' :: collapseWsAux true t := by
  simp [collapseWsAux, h]

theorem collapseWsAux_cons_nws {b : Bool} {c : Char} {t : List Char}
    (h : isSpaceChar c = false) : collapseWsAux b (c :: t) = c :: collapseWsAux false t := by
  simp [collapseWsAux, h]

theorem mem_collapseWsAux {c : Char} :
    ∀ (b : Bool) (s : List Char), c ∈ collapseWsAux b s →
      c = ' ' ∨ (c ∈ s ∧ isSpaceChar c = false) := by
  intro b s
  induction s generalizing b with
  | nil => intro h; simp [collapseWsAux_nil] at h
  | cons a t ih =>
    intro h
    by_cases ha : isSpaceChar a = true
    · cases b with
      | true =>
        rw [collapseWsAux_cons_ws_true ha] at h
        rcases ih true h with h' | ⟨hm, hns⟩
        · exact Or.inl h'
        · exact Or.inr ⟨List.mem_cons_of_mem _ hm, hns⟩
      | false =>
        rw [collapseWsAux_cons_ws_false ha] at h
        rcases List.mem_cons.mp h with rfl | h'
        · exact Or.inl rfl
        · rcases ih true h' with h'' | ⟨hm, hns⟩
          · exact Or.inl h''
          · exact Or.inr ⟨List.mem_cons_of_mem _ hm, hns⟩
    · rw [collapseWsAux_cons_nws (by simpa using ha)] at h
      rcases List.mem_cons.mp h with rfl | h'
      · exact Or.inr ⟨List.mem_cons_self _ _, by simpa using ha⟩
      · rcases ih false h' with h'' | ⟨hm, hns⟩
        · exact Or.inl h''
        · exact Or.inr ⟨List.mem_cons_of_mem _ hm, hns⟩

theorem newline_not_mem_collapseWs (s : List Char) : '\n' ∉ collapseWs s := by
  intro h
  rcases mem_collapseWsAux false s h with h' | ⟨_, hns⟩
  · exact absurd h' (by decide)
  · exact absurd hns (by decide)

theorem matchNumFooter_eq_none {s : List Char}
    (h : ∀ c, s.head? = some c → c ≠ '\n') : matchNumFooter s = none := by
  cases s with
  | nil => rfl
  | cons c t =>
    have : c ≠ '\n' := h c rfl
    simp [matchNumFooter, this]

theorem matchPageFooter_eq_none {s : List Char}
    (h : ∀ c, s.head? = some c → c ≠ '\n') : matchPageFooter s = none := by
  cases s with
  | nil => rfl
  | cons c t =>
    have : c ≠ '\n' := h c rfl
    simp [matchPageFooter, this]

theorem subNumGo_eq_self {s : List Char} (h : '\n' ∉ s) :
    ∀ fuel, subNumGo fuel s = s := by
  induction s with
  | nil => intro fuel; cases fuel <;> rfl
  | cons c t ih =>
    intro fuel
    cases fuel with
    | zero => rfl
    | succ k =>
      have hc : c ≠ '\n' := fun hc => h (hc ▸ List.mem_cons_self _ _)
      have hm : matchNumFooter (c :: t) = none :=
        matchNumFooter_eq_none (by intro d hd; cases hd; exact hc)
      have ht : '\n' ∉ t := fun hm' => h (List.mem_cons_of_mem _ hm')
      simp [subNumGo, hm, ih ht k]

theorem subNum_eq_self {s : List Char} (h : '\n' ∉ s) : subNum s = s :=
  subNumGo_eq_self h _

theorem subPageGo_eq_self {s : List Char} (h : '\n' ∉ s) :
    ∀ fuel count, subPageGo fuel count s = s := by
  induction s with
  | nil =>
    intro fuel count
    cases fuel with
    | zero => rfl
    | succ k => cases count <;> rfl
  | cons c t ih =>
    intro fuel count
    cases fuel with
    | zero => rfl
    | succ k =>
      cases count with
      | zero => rfl
      | succ m =>
        have hc : c ≠ '\n' := fun hc => h (hc ▸ List.mem_cons_self _ _)
        have hm : matchPageFooter (c :: t) = none :=
          matchPageFooter_eq_none (by intro d hd; cases hd; exact hc)
        have ht : '\n' ∉ t := fun hm' => h (List.mem_cons_of_mem _ hm')
        simp [subPageGo, hm, ih ht k]

theorem subPage_eq_self {s : List Char} (h : '\n' ∉ s) : subPage s = s :=
  subPageGo_eq_self h _ _

/-- Both footer substitutions are dead in `clean_text`: they run after
the whitespace collapse has removed every newline. -/
theorem cleanText_eq_strip_collapse (s : List Char) :
    cleanText s = stripChars (collapseWs s) := by
  by_cases hs : s = []
  · subst hs; rfl
  · have hn := newline_not_mem_collapseWs s
    simp [cleanText, hs, subNum_eq_self hn, subPage_eq_self (by simpa [subNum_eq_self hn] using hn)]

theorem head?_collapseWsAux_true {s : List Char} {c : Char}
    (h : (collapseWsAux true s).head? = some c) : isSpaceChar c = false := by
  induction s with
  | nil => simp [collapseWsAux_nil] at h
  | cons a t ih =>
    by_cases ha : isSpaceChar a = true
    · rw [collapseWsAux_cons_ws_true ha] at h
      exact ih h
    · rw [collapseWsAux_cons_nws (by simpa using ha)] at h
      simp only [List.head?_cons, Option.some.injEq] at h
      subst h; simpa using ha

theorem chain'_collapseWsAux : ∀ (b : Bool) (s : List Char),
    List.Chain' noWsPair (collapseWsAux b s) := by
  intro b s
  induction s generalizing b with
  | nil => simp [collapseWsAux_nil]
  | cons a t ih =>
    by_cases ha : isSpaceChar a = true
    · cases b with
      | true => rw [collapseWsAux_cons_ws_true ha]; exact ih true
      | false =>
        rw [collapseWsAux_cons_ws_false ha]
        rw [List.chain'_cons']
        refine ⟨?_, ih true⟩
        intro y hy
        have : isSpaceChar y = false := head?_collapseWsAux_true (by simpa using hy)
        simp [noWsPair, this]
    · rw [collapseWsAux_cons_nws (by simpa using ha)]
      rw [List.chain'_cons']
      refine ⟨?_, ih false⟩
      intro y hy
      simp [noWsPair, ha]

theorem chain'_collapseWs (s : List Char) : List.Chain' noWsPair (collapseWs s) :=
  chain'_collapseWsAux false s

/-- The collapse `collapseWsAux` is the identity on text whose whitespace is already
normalised (every whitespace character is a plain space and no two are
adjacent); with `b = true` the head must additionally be non-space. -/
theorem collapseWsAux_eq_self :
    ∀ (b : Bool) (s : List Char),
      (∀ c ∈ s, isSpaceChar c = true → c = ' ') →
      List.Chain' noWsPair s →
      (b = true → ∀ c, s.head? = some c → isSpaceChar c = false) →
      collapseWsAux b s = s := by
  intro b s
  induction s generalizing b with
  | nil => intro _ _ _; exact collapseWsAux_nil b
  | cons a t ih =>
    intro hsp hch hb
    by_cases ha : isSpaceChar a = true
    · cases b with
      | true => exact absurd ha (by simp [hb rfl a rfl])
      | false =>
        have ha' : a = ' ' := hsp a (List.mem_cons_self _ _) ha
        subst ha'
        rw [collapseWsAux_cons_ws_false ha]
        congr 1
        apply ih true
        · exact fun c hc h => hsp c (List.mem_cons_of_mem _ hc) h
        · exact hch.tail
        · intro _ c hc
          have := (List.chain'_cons'.mp hch).1 c hc
          simp only [noWsPair, ha, true_and] at this
          simpa using this
    · rw [collapseWsAux_cons_nws (by simpa using ha)]
      congr 1
      apply ih false
      · exact fun c hc h => hsp c (List.mem_cons_of_mem _ hc) h
      · exact hch.tail
      · intro h; cases h

theorem mem_dropWhile {p : Char → Bool} {l : List Char} {c : Char}
    (h : c ∈ l.dropWhile p) : c ∈ l := by
  induction l with
  | nil => simp at h
  | cons a t ih =>
    by_cases ha : p a = true
    · simp only [List.dropWhile, ha] at h
      exact List.mem_cons_of_mem _ (ih h)
    · simp only [List.dropWhile, ha] at h
      simpa using h

theorem mem_stripChars {s : List Char} {c : Char} (h : c ∈ stripChars s) : c ∈ s := by
  unfold stripChars at h
  rw [List.mem_reverse] at h
  have h1 := mem_dropWhile h
  rw [List.mem_reverse] at h1
  exact mem_dropWhile h1

theorem chain'_dropWhile {p : Char → Bool} {l : List Char}
    (h : List.Chain' noWsPair l) : List.Chain' noWsPair (l.dropWhile p) := by
  induction l with
  | nil => simp
  | cons a t ih =>
    by_cases ha : p a = true
    · simp only [List.dropWhile, ha]
      exact ih h.tail
    · simpa [List.dropWhile, ha] using h

theorem noWsPair_symm {a b : Char} (h : noWsPair a b) : noWsPair b a := by
  simp only [noWsPair] at h ⊢
  tauto

theorem chain'_reverse_noWsPair {l : List Char}
    (h : List.Chain' noWsPair l) : List.Chain' noWsPair l.reverse := by
  rw [List.chain'_reverse]
  exact h.imp (fun a b hab => noWsPair_symm hab)

theorem chain'_stripChars {s : List Char}
    (h : List.Chain' noWsPair s) : List.Chain' noWsPair (stripChars s) := by
  unfold stripChars
  exact chain'_reverse_noWsPair (chain'_dropWhile (chain'_reverse_noWsPair (chain'_dropWhile h)))

theorem head?_dropWhile {p : Char → Bool} {l : List Char} {c : Char}
    (h : (l.dropWhile p).head? = some c) : p c = false := by
  induction l with
  | nil => simp [List.dropWhile] at h
  | cons a t ih =>
    by_cases ha : p a = true
    · simp only [List.dropWhile, ha] at h
      exact ih h
    · simp only [List.dropWhile, ha, List.head?_cons, Option.some.injEq] at h
      subst h; simpa using ha

theorem dropWhile_eq_self_of_head {p : Char → Bool} {l : List Char}
    (h : ∀ c, l.head? = some c → p c = false) : l.dropWhile p = l := by
  cases l with
  | nil => rfl
  | cons a t =>
    have := h a rfl
    simp [List.dropWhile, this]

theorem getLast?_dropWhile {p : Char → Bool} {l : List Char} {c : Char}
    (h : (l.dropWhile p).getLast? = some c) : l.getLast? = some c := by
  have hne : l.dropWhile p ≠ [] := by
    intro he; rw [he] at h; simp at h
  conv_lhs => rw [← List.takeWhile_append_dropWhile p l]
  rw [List.getLast?_append_of_ne_nil _ hne]
  exact h

theorem head?_stripChars {s : List Char} {c : Char}
    (h : (stripChars s).head? = some c) : isSpaceChar c = false := by
  unfold stripChars at h
  rw [List.head?_reverse] at h
  have h2 := getLast?_dropWhile h
  rw [List.getLast?_reverse] at h2
  exact head?_dropWhile h2

theorem getLast?_stripChars {s : List Char} {c : Char}
    (h : (stripChars s).getLast? = some c) : isSpaceChar c = false := by
  unfold stripChars at h
  rw [List.getLast?_reverse] at h
  exact head?_dropWhile h

/-- The strip `stripChars` is the identity on text with no leading and no
trailing whitespace. -/
theorem stripChars_eq_self {t : List Char}
    (hh : ∀ c, t.head? = some c → isSpaceChar c = false)
    (hl : ∀ c, t.getLast? = some c → isSpaceChar c = false) :
    stripChars t = t := by
  unfold stripChars
  rw [dropWhile_eq_self_of_head hh]
  rw [dropWhile_eq_self_of_head (by
    intro c hc
    rw [List.head?_reverse] at hc
    exact hl c hc)]
  exact List.reverse_reverse t

theorem stripChars_idem (s : List Char) : stripChars (stripChars s) = stripChars s :=
  stripChars_eq_self (fun _ h => head?_stripChars h) (fun _ h => getLast?_stripChars h)

/-- Text already produced by the cleaner is a fixed point of the
whitespace collapse. -/
theorem collapseWs_cleanOutput_eq_self {s : List Char} :
    collapseWs (stripChars (collapseWs s)) = stripChars (collapseWs s) := by
  apply collapseWsAux_eq_self false
  · intro c hc hsp
    rcases mem_collapseWsAux false s (mem_stripChars hc) with h' | ⟨_, hns⟩
    · exact h'
    · rw [hsp] at hns; cases hns
  · exact chain'_stripChars (chain'_collapseWs s)
  · intro h; cases h

/-! ## Evaluation lemmas for the rational geometry

`Rat` arithmetic is `@[irreducible]`, so concrete coordinates are
evaluated through `norm_num` rather than kernel reduction. -/

theorem round1_eval (n : ℤ) {a b : ℚ} (h : a * 10 = (n : ℚ)) (hb : (n : ℚ) / 10 = b) :
    round1 a = b := by
  unfold round1
  rw [h, round_intCast, hb]

theorem round1_100 : round1 (100 : ℚ) = 100 := round1_eval 1000 (by norm_num) (by norm_num)

theorem round1_95 : round1 (95 : ℚ) = 95 := round1_eval 950 (by norm_num) (by norm_num)

theorem round1_70 : round1 (70 : ℚ) = 70 := round1_eval 700 (by norm_num) (by norm_num)

/-! ## Case equations for one segmentation step -/

theorem segStep_blank {chars : List PChar} {y : ℚ} (s : SegState)
    (h : lineTextAt chars y = []) : segStep chars s y = s := by
  unfold segStep
  rw [h]
  simp

theorem segStep_start {chars : List PChar} {y : ℚ} (blocks : List Block)
    (buf : List (List Char)) (h : lineTextAt chars y ≠ []) :
    segStep chars ⟨blocks, buf, none⟩ y = ⟨blocks, buf ++ [lineTextAt chars y], some y⟩ := by
  unfold segStep
  simp [h]

/-- A gap of at most 20 units keeps the buffer running. -/
theorem segStep_near {chars : List PChar} {y y0 : ℚ} (blocks : List Block)
    (buf : List (List Char)) (h : lineTextAt chars y ≠ []) (hg : |y - y0| ≤ 20) :
    segStep chars ⟨blocks, buf, some y0⟩ y = ⟨blocks, buf ++ [lineTextAt chars y], some y⟩ := by
  unfold segStep
  simp [h, not_lt.mpr hg]

/-- A gap above 20 units flushes the buffer and starts a new one. -/
theorem segStep_far {chars : List PChar} {y y0 : ℚ} (blocks : List Block)
    (buf : List (List Char)) (h : lineTextAt chars y ≠ []) (hg : 20 < |y - y0|) :
    segStep chars ⟨blocks, buf, some y0⟩ y =
      ⟨blocks ++ (flushBuf buf).toList, [lineTextAt chars y], some y⟩ := by
  unfold segStep flushState
  simp [h, hg]

/-! ## Concrete evaluations of the three sample pages -/

theorem keys_mergePage : sortDesc (lineKeys mergePage) = [100, 95] := by
  have hne : ¬((95 : ℚ) = 100) := by norm_num
  have hle : (95 : ℚ) ≤ 100 := by norm_num
  simp [mergePage, lineKeys, sortDesc, insertDesc, round1_100, round1_95, hne, hle]

theorem keys_splitPage : sortDesc (lineKeys splitPage) = [100, 70] := by
  have hne : ¬((70 : ℚ) = 100) := by norm_num
  have hle : (70 : ℚ) ≤ 100 := by norm_num
  simp [splitPage, lineKeys, sortDesc, insertDesc, round1_100, round1_70, hne, hle]

theorem keys_c2Page : sortDesc (lineKeys c2Page) = [100] := by
  simp [c2Page, lineKeys, sortDesc, insertDesc, round1_100]

theorem lineText_merge_100 : lineTextAt mergePage 100 = "abcdefghijkl".toList := by
  have hne : ¬((95 : ℚ) = 100) := by norm_num
  simp [mergePage, lineTextAt, round1_100, round1_95, hne]
  decide

theorem lineText_merge_95 : lineTextAt mergePage 95 = "mnopqrstuvwx".toList := by
  have hne : ¬((100 : ℚ) = 95) := by norm_num
  simp [mergePage, lineTextAt, round1_100, round1_95, hne]
  decide

theorem lineText_split_100 : lineTextAt splitPage 100 = "abcdefghijkl".toList := by
  have hne : ¬((70 : ℚ) = 100) := by norm_num
  simp [splitPage, lineTextAt, round1_100, round1_70, hne]
  decide

theorem lineText_split_70 : lineTextAt splitPage 70 = "mnopqrstuvwx".toList := by
  have hne : ¬((100 : ℚ) = 70) := by norm_num
  simp [splitPage, lineTextAt, round1_100, round1_70, hne]
  decide

theorem lineText_c2_100 : lineTextAt c2Page 100 = "a        bc".toList := by
  simp [c2Page, lineTextAt, round1_100]
  decide

theorem analyze_mergePage : analyzeContentBlocks mergePage =
    [⟨BlockType.paragraph, none, none, "abcdefghijkl mnopqrstuvwx".toList, [], [], none⟩] := by
  have hgap : |(95 : ℚ) - 100| ≤ 20 := by
    rw [show (95 : ℚ) - 100 = -5 by norm_num]
    norm_num
  unfold analyzeContentBlocks
  rw [if_neg (by simp [mergePage]), keys_mergePage]
  simp only [List.foldl_cons, List.foldl_nil]
  rw [segStep_start [] [] (by rw [lineText_merge_100]; decide), lineText_merge_100]
  rw [segStep_near _ _ (by rw [lineText_merge_95]; decide) hgap, lineText_merge_95]
  decide

theorem analyze_splitPage : analyzeContentBlocks splitPage =
    [⟨BlockType.paragraph, none, none, "abcdefghijkl".toList, [], [], none⟩,
     ⟨BlockType.paragraph, none, none, "mnopqrstuvwx".toList, [], [], none⟩] := by
  have hgap : 20 < |(70 : ℚ) - 100| := by
    rw [show (70 : ℚ) - 100 = -30 by norm_num]
    norm_num
  unfold analyzeContentBlocks
  rw [if_neg (by simp [splitPage]), keys_splitPage]
  simp only [List.foldl_cons, List.foldl_nil]
  rw [segStep_start [] [] (by rw [lineText_split_100]; decide), lineText_split_100]
  rw [segStep_far _ _ (by rw [lineText_split_70]; decide) hgap, lineText_split_70]
  decide

theorem analyze_c2Page : analyzeContentBlocks c2Page =
    [⟨BlockType.paragraph, none, none, "a bc".toList, [], [], none⟩] := by
  unfold analyzeContentBlocks
  rw [if_neg (by simp [c2Page]), keys_c2Page]
  simp only [List.foldl_cons, List.foldl_nil]
  rw [segStep_start [] [] (by rw [lineText_c2_100]; decide), lineText_c2_100]
  decide

/-! ## Lemmas about the heading scan -/

theorem lineStep_blank {st : Option (List Char) × Option (List Char)} {l : List Char}
    (h : stripChars l = []) : lineStep st l = st := by
  unfold lineStep
  simp [h]

theorem pyTruthy_ne_none {o : Option (List Char)} (h : pyTruthy o = true) : o ≠ none := by
  intro hn
  rw [hn] at h
  simp [pyTruthy] at h

/-- One line of the scan preserves "a non-null sub-section forces a
non-null section". -/
theorem lineStep_invariant {st : Option (List Char) × Option (List Char)} {l : List Char}
    (h : st.2 ≠ none → st.1 ≠ none) :
    (lineStep st l).2 ≠ none → (lineStep st l).1 ≠ none := by
  by_cases hb : stripChars l = []
  · rw [lineStep_blank hb]; exact h
  · unfold lineStep
    simp only [hb, if_false, ite_false, reduceIte]
    by_cases h1 : pyTruthy st.1 = true
    · simp only [h1, if_true, ite_true, reduceIte]
      intro _
      exact pyTruthy_ne_none h1
    · simp only [h1, if_false, ite_false, Bool.not_eq_true, reduceIte]
      cases hps : pickSection (stripChars l) with
      | some g =>
        intro _
        simp
      | none =>
        -- the section variable keeps its old value st.1
        by_cases h2 : pyTruthy st.2 = true
        · intro _
          exact h (pyTruthy_ne_none h2)
        · -- sub can only change if pyTruthy of the (unchanged) section holds,
          -- which contradicts h1
          simp only [h1, h2, Bool.not_eq_true, reduceIte, ite_self]
          intro hsub
          exact h hsub

theorem foldl_lineStep_invariant (lines : List (List Char))
    (st : Option (List Char) × Option (List Char)) (h : st.2 ≠ none → st.1 ≠ none) :
    (lines.foldl lineStep st).2 ≠ none → (lines.foldl lineStep st).1 ≠ none := by
  induction lines generalizing st with
  | nil => exact h
  | cons a t ih =>
    rw [List.foldl_cons]
    exact ih _ (lineStep_invariant h)

theorem foldl_lineStep_filter (lines : List (List Char))
    (st : Option (List Char) × Option (List Char)) :
    lines.foldl lineStep st =
      (lines.filter (fun l => !(stripChars l).isEmpty)).foldl lineStep st := by
  induction lines generalizing st with
  | nil => rfl
  | cons a t ih =>
    by_cases hb : stripChars a = []
    · rw [List.foldl_cons, lineStep_blank hb,
        List.filter_cons_of_neg (by simp [hb])]
      exact ih st
    · rw [List.foldl_cons, List.filter_cons_of_pos (by simp [hb]), List.foldl_cons]
      exact ih _

/-! ## The claims -/

/-- C4: for every input text the heading classifier never returns a
non-null `sub_section` with a null `section`: the sub-section slot is
filled only on a line where the (just updated) section is truthy. -/
theorem c4_sub_implies_section (text : List Char)
    (h : (extractSectionsAndSubsections text).2 ≠ none) :
    (extractSectionsAndSubsections text).1 ≠ none := by
  unfold extractSectionsAndSubsections at h ⊢
  refine foldl_lineStep_invariant _ _ ?_ h
  intro hn
  exact absurd rfl hn

theorem c4_sub_implies_section_witness :
    (extractSectionsAndSubsections "1. Executive Summary\n1.1 Key Findings".toList).1 ≠
      none :=
  c4_sub_implies_section _ (by decide)

/-- C5: `clean_text` is idempotent: cleaning already-cleaned text is a
no-op. -/
theorem c5_cleanText_idempotent (s : List Char) :
    cleanText (cleanText s) = cleanText s := by
  rw [cleanText_eq_strip_collapse s, cleanText_eq_strip_collapse (stripChars (collapseWs s)),
    collapseWs_cleanOutput_eq_self, stripChars_idem]

/-- C6: contrary to the claim, `clean_text` does not strip standalone
page-number lines nor "Page N of M" footers: the whitespace collapse
runs first and removes every newline, so the two footer patterns
(which both require a leading `\n`) can never match, and the footer
content survives in the output. -/
theorem c6_page_footers_survive :
    cleanText "a\n12\nb".toList = "a 12 b".toList
    ∧ "12".toList <:+: cleanText "a\n12\nb".toList
    ∧ cleanText "x\nPage 3 of 7\ny".toList = "x Page 3 of 7 y".toList
    ∧ "Page 3 of 7".toList <:+: cleanText "x\nPage 3 of 7\ny".toList :=
  ⟨by decide, by decide, by decide, by decide⟩

/-- C7 counterexample: with five leading blank lines the code's
`lines[:5]` window contains only blank lines, so the heading on the
sixth raw line is never inspected, while the claimed
"first 5 non-empty lines" reading would find it. -/
theorem c7_counterexample :
    extractSectionsAndSubsections "\n\n\n\n\nABC DEF".toList = (none, none)
    ∧ specExtractFirstFiveNonEmpty "\n\n\n\n\nABC DEF".toList =
        (some "ABC DEF".toList, none)
    ∧ extractSectionsAndSubsections "\n\n\n\n\nABC DEF".toList ≠
        specExtractFirstFiveNonEmpty "\n\n\n\n\nABC DEF".toList :=
  ⟨by decide, by decide, by decide⟩

/-- C7 (amended): the classifier inspects at most the first 5 raw lines
of the newline split — blank lines consume slots of the window — and
within that window the blank lines are skipped. -/
theorem c7_first_five_raw_lines (text : List Char) :
    extractSectionsAndSubsections text =
      (((text.splitOn '\n').take 5).filter (fun l => !(stripChars l).isEmpty)).foldl
        lineStep (none, none) := by
  unfold extractSectionsAndSubsections
  exact foldl_lineStep_filter _ _

/-- C10: cleaned text contains no newline, never two adjacent
whitespace characters, and no leading or trailing whitespace; empty
input cleans to the empty string. -/
theorem c10_cleanText_normalform (s : List Char) :
    '\n' ∉ cleanText s
    ∧ List.Chain' noWsPair (cleanText s)
    ∧ stripChars (cleanText s) = cleanText s
    ∧ cleanText [] = [] := by
  refine ⟨?_, ?_, ?_, rfl⟩
  · rw [cleanText_eq_strip_collapse]
    intro h
    exact newline_not_mem_collapseWs s (mem_stripChars h)
  · rw [cleanText_eq_strip_collapse]
    exact chain'_stripChars (chain'_collapseWs s)
  · rw [cleanText_eq_strip_collapse]
    exact stripChars_idem _

theorem c10_cleanText_normalform_witness :
    '\n' ∉ cleanText "a \n b".toList :=
  (c10_cleanText_normalform _).1

/-- C2 counterexample: the page `c2Page` produces a paragraph whose
cleaned text `"a bc"` has length 4 ≤ 10, yet the paragraph is emitted —
the 10-character threshold is tested on the raw (merely stripped) text
`"a        bc"` of length 11, before cleaning. -/
theorem c2_counterexample :
    analyzeContentBlocks c2Page =
      [⟨BlockType.paragraph, none, none, "a bc".toList, [], [], none⟩]
    ∧ (cleanText (List.intercalate [' '] ["a        bc".toList])).length ≤ 10
    ∧ 10 < (stripChars (List.intercalate [' '] ["a        bc".toList])).length :=
  ⟨analyze_c2Page, by decide, by decide⟩

/-- C2 (amended): a flushed paragraph buffer is emitted iff it is
non-empty and the *stripped raw* space-join of its lines exceeds 10
characters (the threshold precedes cleaning); the emitted block carries
the cleaned join as its text. -/
theorem c2_flush_threshold (buf : List (List Char)) :
    ((flushBuf buf).isSome = true ↔
      buf ≠ [] ∧ 10 < (stripChars (List.intercalate [' '] buf)).length)
    ∧ ∀ b, flushBuf buf = some b →
        b.btype = BlockType.paragraph
        ∧ b.text = cleanText (List.intercalate [' '] buf) := by
  constructor
  · unfold flushBuf
    by_cases hb : buf = []
    · simp [hb]
    · by_cases hl : 10 < (stripChars (List.intercalate [' '] buf)).length
      · simp [hb, hl]
      · simp [hb, hl]
  · intro b hb
    unfold flushBuf at hb
    by_cases hn : buf = []
    · simp [hn] at hb
    · rw [if_neg hn] at hb
      by_cases hl : 10 < (stripChars (List.intercalate [' '] buf)).length
      · rw [if_pos hl] at hb
        cases hb
        exact ⟨rfl, rfl⟩
      · rw [if_neg hl] at hb
        cases hb

theorem c2_flush_threshold_witness :
    (flushBuf ["a        bc".toList]).isSome = true :=
  (c2_flush_threshold ["a        bc".toList]).1.mpr ⟨by decide, by decide⟩

/-- C3: two consecutive non-empty lines stay in one paragraph exactly
when their rounded vertical coordinates differ by at most 20 units; a
larger gap flushes the buffer and starts a new one.  Lines at 100 and
95 merge into one paragraph; lines at 100 and 70 split into two. -/
theorem c3_paragraph_gap_rule :
    (∀ (chars : List PChar) (blocks : List Block) (buf : List (List Char)) (y y0 : ℚ),
        lineTextAt chars y ≠ [] →
          (|y - y0| ≤ 20 →
            segStep chars ⟨blocks, buf, some y0⟩ y =
              ⟨blocks, buf ++ [lineTextAt chars y], some y⟩)
          ∧ (20 < |y - y0| →
            segStep chars ⟨blocks, buf, some y0⟩ y =
              ⟨blocks ++ (flushBuf buf).toList, [lineTextAt chars y], some y⟩))
    ∧ (analyzeContentBlocks mergePage).length = 1
    ∧ (analyzeContentBlocks splitPage).length = 2 := by
  refine ⟨?_, ?_, ?_⟩
  · intro chars blocks buf y y0 h
    exact ⟨fun hg => segStep_near blocks buf h hg, fun hg => segStep_far blocks buf h hg⟩
  · rw [analyze_mergePage]; rfl
  · rw [analyze_splitPage]; rfl

theorem c3_paragraph_gap_rule_witness :
    segStep mergePage ⟨[], ["abcdefghijkl".toList], some 100⟩ 95 =
      ⟨[], ["abcdefghijkl".toList, "mnopqrstuvwx".toList], some 95⟩ := by
  have h :=
    (c3_paragraph_gap_rule.1 mergePage [] ["abcdefghijkl".toList] 95 100
      (by rw [lineText_merge_95]; decide)).1
      (by rw [show (95 : ℚ) - 100 = -5 by norm_num]; norm_num)
  rw [h, lineText_merge_95]
  rfl

/-! ## The classifier never produces an empty-string heading

Every regex group starts with a digit or a letter, so its strip is
non-empty; hence Python truthiness of a returned heading coincides with
being non-`None`. -/

theorem isSpaceChar_cases {c : Char} (h : isSpaceChar c = true) :
    c = ' ' ∨ c = '\t' ∨ c = '\n' ∨ c = '\r' ∨ c = '\x0b' ∨ c = '\x0c' := by
  simpa [isSpaceChar, or_assoc] using h

theorem isDigitCh_not_space {c : Char} (h : isDigitCh c = true) : isSpaceChar c = false := by
  simp only [isDigitCh, Bool.and_eq_true, decide_eq_true_eq] at h
  by_contra hs
  rcases isSpaceChar_cases (by simpa using hs) with rfl | rfl | rfl | rfl | rfl | rfl <;>
    exact absurd h.1 (by decide)

theorem isUpperAZ_not_space {c : Char} (h : isUpperAZ c = true) : isSpaceChar c = false := by
  simp only [isUpperAZ, Bool.and_eq_true, decide_eq_true_eq] at h
  by_contra hs
  rcases isSpaceChar_cases (by simpa using hs) with rfl | rfl | rfl | rfl | rfl | rfl <;>
    exact absurd h.1 (by decide)

theorem isLowerAZ_not_space {c : Char} (h : isLowerAZ c = true) : isSpaceChar c = false := by
  simp only [isLowerAZ, Bool.and_eq_true, decide_eq_true_eq] at h
  by_contra hs
  rcases isSpaceChar_cases (by simpa using hs) with rfl | rfl | rfl | rfl | rfl | rfl <;>
    exact absurd h.1 (by decide)

theorem isAlphaAZ_not_space {c : Char} (h : isAlphaAZ c = true) : isSpaceChar c = false := by
  rcases Bool.or_eq_true_iff.mp (by simpa [isAlphaAZ] using h) with h' | h'
  · exact isUpperAZ_not_space h'
  · exact isLowerAZ_not_space h'

theorem stripChars_cons_ne_nil {c : Char} {t : List Char} (hc : isSpaceChar c = false) :
    stripChars (c :: t) ≠ [] := by
  unfold stripChars
  intro h
  rw [List.reverse_eq_nil_iff, List.dropWhile_eq_nil_iff] at h
  have hd : (c :: t).dropWhile isSpaceChar = c :: t :=
    dropWhile_eq_self_of_head (by intro d hd; cases hd; exact hc)
  rw [hd] at h
  have := h c (by simp)
  rw [hc] at this
  cases this

theorem takeWhile_head_holds {p : Char → Bool} {l : List Char} {d : Char} {ds : List Char}
    (h : l.takeWhile p = d :: ds) : p d = true := by
  have : d ∈ l.takeWhile p := by rw [h]; exact List.mem_cons_self _ _
  exact List.mem_takeWhile_imp this

theorem matchSecNum_group {s g : List Char} (h : matchSecNum s = some g) :
    ∃ c t, g = c :: t ∧ isSpaceChar c = false := by
  unfold matchSecNum at h
  dsimp only at h
  cases hds : (s.dropWhile isSpaceChar).takeWhile isDigitCh with
  | nil => rw [hds] at h; simp at h
  | cons d ds =>
    rw [hds] at h
    simp only [reduceCtorEq, if_false, reduceIte] at h
    repeat' split at h
    all_goals try exact Option.noConfusion h
    all_goals injection h with hg
    all_goals subst hg
    all_goals exact ⟨d, _, rfl, isDigitCh_not_space (takeWhile_head_holds hds)⟩

theorem matchAllCaps_group {s g : List Char} (h : matchAllCaps s = some g) :
    ∃ c t, g = c :: t ∧ isSpaceChar c = false := by
  unfold matchAllCaps at h
  split at h
  · rename_i c t heq
    split at h
    · injection h with hg
      subst hg
      rename_i hcond
      exact ⟨c, t, rfl, isUpperAZ_not_space (by
        simp only [Bool.and_eq_true] at hcond
        exact hcond.1.1)⟩
    · exact absurd h (by simp)
  · exact absurd h (by simp)

theorem matchTitleLine_group {s g : List Char} (h : matchTitleLine s = some g) :
    ∃ c t, g = c :: t ∧ isSpaceChar c = false := by
  unfold matchTitleLine at h
  split at h
  · rename_i c1 c2 t heq
    split at h
    · injection h with hg
      subst hg
      rename_i hcond
      exact ⟨c1, c2 :: t, rfl, isUpperAZ_not_space (by
        simp only [Bool.and_eq_true] at hcond
        exact hcond.1.1.1)⟩
    · exact absurd h (by simp)
  · exact absurd h (by simp)

theorem matchSubNum_group {s g : List Char} (h : matchSubNum s = some g) :
    ∃ c t, g = c :: t ∧ isSpaceChar c = false := by
  unfold matchSubNum at h
  dsimp only at h
  cases hds : (s.dropWhile isSpaceChar).takeWhile isDigitCh with
  | nil => rw [hds] at h; simp at h
  | cons d ds =>
    rw [hds] at h
    simp only [reduceCtorEq, if_false, reduceIte] at h
    repeat' split at h
    all_goals try exact Option.noConfusion h
    all_goals injection h with hg
    all_goals subst hg
    all_goals exact ⟨d, _, rfl, isDigitCh_not_space (takeWhile_head_holds hds)⟩

theorem matchListMarker_group {s g : List Char} (h : matchListMarker s = some g) :
    ∃ c t, g = c :: t ∧ isSpaceChar c = false := by
  unfold matchListMarker at h
  split at h
  · rename_i c r heq
    split at h
    · rename_i hlow
      try dsimp only at h
      split at h
      · rename_i d t heq2
        split at h
        · rename_i halpha
          split at h
          · injection h
          · injection h with hg
            subst hg
            exact ⟨c, _, rfl, isLowerAZ_not_space hlow⟩
        · injection h
      · injection h
    · injection h
  · injection h

theorem pickSection_ne_nil {line g : List Char} (h : pickSection line = some g) : g ≠ [] := by
  unfold pickSection at h
  split at h
  · rename_i g0 hm
    injection h with hg
    subst hg
    obtain ⟨c, t, rfl, hc⟩ := matchSecNum_group hm
    exact stripChars_cons_ne_nil hc
  · split at h
    · rename_i g0 hm
      injection h with hg
      subst hg
      obtain ⟨c, t, rfl, hc⟩ := matchAllCaps_group hm
      exact stripChars_cons_ne_nil hc
    · split at h
      · rename_i g0 hm
        injection h with hg
        subst hg
        obtain ⟨c, t, rfl, hc⟩ := matchTitleLine_group hm
        exact stripChars_cons_ne_nil hc
      · exact absurd h (by simp)

theorem pickSubSection_ne_nil {line g : List Char} (h : pickSubSection line = some g) :
    g ≠ [] := by
  unfold pickSubSection at h
  split at h
  · rename_i g0 hm
    injection h with hg
    subst hg
    obtain ⟨c, t, rfl, hc⟩ := matchSubNum_group hm
    exact stripChars_cons_ne_nil hc
  · split at h
    · rename_i g0 hm
      injection h with hg
      subst hg
      obtain ⟨c, t, rfl, hc⟩ := matchListMarker_group hm
      exact stripChars_cons_ne_nil hc
    · split at h
      · rename_i g0 hm
        injection h with hg
        subst hg
        obtain ⟨c, t, rfl, hc⟩ := matchTitleLine_group hm
        exact stripChars_cons_ne_nil hc
      · exact absurd h (by simp)

/-- The section slot after one line is either unchanged or a freshly
picked (hence non-empty) heading. -/
theorem lineStep_fst_cases (st : Option (List Char) × Option (List Char)) (l : List Char) :
    (lineStep st l).1 = st.1
    ∨ ∃ g, pickSection (stripChars l) = some g ∧ (lineStep st l).1 = some g := by
  unfold lineStep
  by_cases hb : stripChars l = []
  · left; simp [hb]
  · simp only [hb, reduceIte]
    by_cases ht : pyTruthy st.1 = true
    · left; simp [ht]
    · cases hp : pickSection (stripChars l) with
      | some g =>
        right
        exact ⟨g, rfl, by simp [ht, hp]⟩
      | none => left; simp [ht, hp]

/-- The sub-section slot after one line is either unchanged or a
freshly picked (hence non-empty) sub-heading. -/
theorem lineStep_snd_cases (st : Option (List Char) × Option (List Char)) (l : List Char) :
    (lineStep st l).2 = st.2
    ∨ ∃ g, pickSubSection (stripChars l) = some g ∧ (lineStep st l).2 = some g := by
  unfold lineStep
  by_cases hb : stripChars l = []
  · left; simp [hb]
  · simp only [hb, reduceIte]
    by_cases ht2 : pyTruthy st.2 = true
    · left; simp [ht2]
    · by_cases hsec : pyTruthy
        (if pyTruthy st.1 = true then st.1
         else
           match pickSection (stripChars l) with
           | some g => some g
           | none => st.1) = true
      · cases hp : pickSubSection (stripChars l) with
        | some g =>
          right
          exact ⟨g, rfl, by simp [ht2, hsec, hp]⟩
        | none => left; simp [ht2, hsec, hp]
      · left; simp [ht2, hsec]

theorem lineStep_ne_empty {st : Option (List Char) × Option (List Char)} {l : List Char}
    (h1 : st.1 ≠ some []) (h2 : st.2 ≠ some []) :
    (lineStep st l).1 ≠ some [] ∧ (lineStep st l).2 ≠ some [] := by
  constructor
  · rcases lineStep_fst_cases st l with h | ⟨g, hg, he⟩
    · rw [h]; exact h1
    · rw [he]
      intro hc
      simp only [Option.some.injEq] at hc
      exact pickSection_ne_nil hg hc
  · rcases lineStep_snd_cases st l with h | ⟨g, hg, he⟩
    · rw [h]; exact h2
    · rw [he]
      intro hc
      simp only [Option.some.injEq] at hc
      exact pickSubSection_ne_nil hg hc

theorem foldl_lineStep_ne_empty (lines : List (List Char))
    (st : Option (List Char) × Option (List Char))
    (h1 : st.1 ≠ some []) (h2 : st.2 ≠ some []) :
    (lines.foldl lineStep st).1 ≠ some [] ∧ (lines.foldl lineStep st).2 ≠ some [] := by
  induction lines generalizing st with
  | nil => exact ⟨h1, h2⟩
  | cons a t ih =>
    rw [List.foldl_cons]
    obtain ⟨g1, g2⟩ := lineStep_ne_empty h1 h2
    exact ih _ g1 g2

theorem extract_sections_ne_empty (text : List Char) :
    (extractSectionsAndSubsections text).1 ≠ some []
    ∧ (extractSectionsAndSubsections text).2 ≠ some [] := by
  unfold extractSectionsAndSubsections
  exact foldl_lineStep_ne_empty _ _ (by intro h; cases h) (by intro h; cases h)

theorem flushBuf_section_ne_empty {buf : List (List Char)} {b : Block}
    (h : flushBuf buf = some b) : b.sectionName ≠ some [] := by
  unfold flushBuf at h
  dsimp only at h
  split at h
  · exact absurd h (by simp)
  · split at h
    · injection h with hb
      subst hb
      exact (extract_sections_ne_empty _).1
    · exact absurd h (by simp)

theorem segStep_blocks_sections {chars : List PChar} {s : SegState} {y : ℚ}
    (h : ∀ b ∈ s.blocks, b.sectionName ≠ some []) :
    ∀ b ∈ (segStep chars s y).blocks, b.sectionName ≠ some [] := by
  unfold segStep flushState
  dsimp only
  split
  · exact h
  · split
    · split
      · intro b hb
        rcases List.mem_append.mp hb with hb' | hb'
        · exact h b hb'
        · cases hfb : flushBuf s.buf with
          | none => rw [hfb] at hb'; cases hb'
          | some blk =>
            rw [hfb] at hb'
            rcases List.mem_singleton.mp (by simpa using hb') with rfl
            exact flushBuf_section_ne_empty hfb
      · exact h
    · exact h

theorem foldl_segStep_sections (chars : List PChar) (keys : List ℚ) (s : SegState)
    (h : ∀ b ∈ s.blocks, b.sectionName ≠ some []) :
    ∀ b ∈ (keys.foldl (segStep chars) s).blocks, b.sectionName ≠ some [] := by
  induction keys generalizing s with
  | nil => exact h
  | cons y t ih =>
    rw [List.foldl_cons]
    exact ih _ (segStep_blocks_sections h)

/-- The paragraph segmenter never emits a block whose section is the
empty string: every heading the classifier returns is non-empty. -/
theorem analyze_sections_ne_empty (chars : List PChar) :
    ∀ b ∈ analyzeContentBlocks chars, b.sectionName ≠ some [] := by
  unfold analyzeContentBlocks
  split
  · intro b hb; cases hb
  · intro b hb
    rcases List.mem_append.mp hb with hb' | hb'
    · exact foldl_segStep_sections chars _ _ (by intro b' hb''; cases hb'') b hb'
    · cases hfb : flushBuf
        (((sortDesc (lineKeys chars)).foldl (segStep chars) ⟨[], [], none⟩).buf) with
      | none => rw [hfb] at hb'; cases hb'
      | some blk =>
        rw [hfb] at hb'
        rcases List.mem_singleton.mp (by simpa using hb') with rfl
        exact flushBuf_section_ne_empty hfb
theorem find?_congr {α : Type} (l : List α) (p q : α → Bool)
    (h : ∀ x ∈ l, p x = q x) : l.find? p = l.find? q := by
  induction l with
  | nil => rfl
  | cons a t ih =>
    have ha := h a (List.mem_cons_self _ _)
    cases hq : q a with
    | true =>
      rw [List.find?_cons_of_pos _ (ha.trans hq), List.find?_cons_of_pos _ hq]
    | false =>
      rw [List.find?_cons_of_neg _ (by simp [ha, hq]),
        List.find?_cons_of_neg _ (by simp [hq])]
      exact ih fun x hx => h x (List.mem_cons_of_mem _ hx)

/-- C1: each table/chart gets its heading context from an independent
reverse scan of the page's paragraph list: it copies `section` and
`sub_section` from the first paragraph (from the end) with a non-null
section, and is left untouched when no paragraph has one.  The code
tests Python truthiness rather than non-nullness, but the two agree
because — second conjunct — the segmenter never emits a paragraph whose
section is the empty string. -/
theorem c1_context_propagation :
    (∀ (textBlocks : List Block) (b : Block),
        (∀ p ∈ textBlocks, p.sectionName ≠ some []) →
        (∀ p, textBlocks.reverse.find? (fun q => q.sectionName.isSome) = some p →
            (assignContext textBlocks b).sectionName = p.sectionName
            ∧ (assignContext textBlocks b).subSection = p.subSection)
        ∧ ((∀ p ∈ textBlocks, p.sectionName = none) → assignContext textBlocks b = b))
    ∧ (∀ (chars : List PChar) (b : Block),
        b ∈ analyzeContentBlocks chars → b.sectionName ≠ some []) := by
  constructor
  · intro textBlocks b hne
    have hagree : ∀ x ∈ textBlocks.reverse, pyTruthy x.sectionName = x.sectionName.isSome := by
      intro x hx
      cases hxs : x.sectionName with
      | none => simp [pyTruthy]
      | some s =>
        have hs : s ≠ [] := by
          intro hnil
          exact hne x (List.mem_reverse.mp hx) (by rw [hxs, hnil])
        simp [pyTruthy, List.isEmpty_iff, hs]
    have hfind := find?_congr textBlocks.reverse _ _ hagree
    constructor
    · intro p hp
      unfold assignContext
      rw [hfind, hp]
      exact ⟨rfl, rfl⟩
    · intro hall
      unfold assignContext
      have hnone : textBlocks.reverse.find? (fun q => pyTruthy q.sectionName) = none := by
        rw [List.find?_eq_none]
        intro x hx
        rw [hall x (List.mem_reverse.mp hx)]
        simp [pyTruthy]
      rw [hnone]
  · exact fun chars b hb => analyze_sections_ne_empty chars b hb

theorem c1_context_propagation_witness :
    (assignContext [paraA, paraNone, paraB] exampleTable).sectionName = some "B".toList
    ∧ (assignContext [paraA, paraNone, paraB] exampleTable).subSection =
        some "B.1".toList := by
  have h :=
    (c1_context_propagation.1 [paraA, paraNone, paraB] exampleTable (by decide)).1 paraB
      (by decide)
  refine ⟨?_, ?_⟩
  · rw [h.1]; decide
  · rw [h.2]; decide

/-- The chart detector on a one-image page whose width/height pass the
size filter. -/
theorem detectCharts_singleton (img : PImage) (chars : List PChar) (w h : ℚ)
    (hwim : img.width = some w) (hhim : img.height = some h)
    (hw100 : 100 < w) (hh100 : 100 < h) :
    detectChartsInPage [img] chars =
      [⟨BlockType.chart, none, none, [],
        if (chars.filter fun c => |c.y0 - img.y1.getD h| < 50).foldl
            (fun acc c => acc ++ c.text) [] = [] then
          chartLabel 1
        else
          chartLabel 1 ++ " - ".toList ++
            ((chars.filter fun c => |c.y0 - img.y1.getD h| < 50).foldl
              (fun acc c => acc ++ c.text) []).take 100 ++ "...".toList,
        [], some (w, h)⟩] := by
  unfold detectChartsInPage
  simp [hwim, hhim, hw100, hh100, List.enum, List.enumFrom]

/-- Shared evaluation: the sample image keeps only the top-edge
character `"T"` in its caption. -/
theorem detectCharts_example_eval :
    detectChartsInPage [chartImage] chartChars =
      [⟨BlockType.chart, none, none, [], "Chart/Image 1 - T...".toList, [],
        some (150, 150)⟩] := by
  have hfil : chartChars.filter (fun c => |c.y0 - chartImage.y1.getD 150| < 50) =
      [(⟨"T".toList, 150⟩ : PChar)] := by
    have hgd : chartImage.y1.getD 150 = (150 : ℚ) := rfl
    have hc1 : ¬(|(0 : ℚ) - 150| < 50) := by
      rw [show (0 : ℚ) - 150 = -150 by norm_num]
      norm_num
    have hc2 : |(150 : ℚ) - 150| < 50 := by
      rw [show (150 : ℚ) - 150 = 0 by norm_num]
      norm_num
    rw [hgd, chartChars]
    rw [List.filter_cons, List.filter_cons, List.filter_nil]
    simp [hc1, hc2]
    norm_num
  have h :=
    detectCharts_singleton chartImage chartChars 150 150 rfl rfl (by norm_num) (by norm_num)
  rw [h, hfil]
  rfl

/-- C8 counterexample: the caption candidate is gathered around the
image's `y1` coordinate — its top edge under the bottom-left origin
(`y1 = 150` here, against `y0 = 0`) — so the bottom-edge character
`"B"` is ignored and the top-edge character `"T"` is kept, contrary to
the claimed "within 50 units of the image's bottom edge". -/
theorem c8_counterexample :
    (detectChartsInPage [chartImage] chartChars).map Block.description =
      ["Chart/Image 1 - T...".toList]
    ∧ (chartChars.filter fun c => |c.y0 - chartImage.y0.getD 0| < 50).foldl
        (fun acc c => acc ++ c.text) [] = "B".toList
    ∧ ("B".toList : List Char) ≠ "T".toList := by
  refine ⟨?_, ?_, by decide⟩
  · rw [detectCharts_example_eval]
    decide
  · have hb1 : (decide (|(0 : ℚ) - 0| < 50)) = true := by
      apply decide_eq_true
      rw [show (0 : ℚ) - 0 = 0 by norm_num]
      norm_num
    have hb2 : (decide (|(150 : ℚ) - 0| < 50)) = false := by
      apply decide_eq_false
      rw [show (150 : ℚ) - 0 = 150 by norm_num]
      norm_num
    simp only [chartChars, chartImage, Option.getD_some, List.filter_cons, List.filter_nil,
      hb1, hb2, if_true, if_false, Bool.false_eq_true, reduceIte]
    decide

/-- C8 (amended): for an image passing the size filter, the caption
candidate is the concatenation of exactly those page characters whose
vertical start lies strictly within 50 units of the image's `y1`
coordinate — its top edge under the bottom-left-origin convention —
truncated to 100 characters with an ellipsis marker when non-empty,
else a bare label. -/
theorem c8_caption_from_top_edge (img : PImage) (chars : List PChar) (w h : ℚ)
    (hwim : img.width = some w) (hhim : img.height = some h)
    (hw100 : 100 < w) (hh100 : 100 < h) :
    detectChartsInPage [img] chars =
      [⟨BlockType.chart, none, none, [],
        if (chars.filter fun c => |c.y0 - img.y1.getD h| < 50).foldl
            (fun acc c => acc ++ c.text) [] = [] then
          chartLabel 1
        else
          chartLabel 1 ++ " - ".toList ++
            ((chars.filter fun c => |c.y0 - img.y1.getD h| < 50).foldl
              (fun acc c => acc ++ c.text) []).take 100 ++ "...".toList,
        [], some (w, h)⟩] :=
  detectCharts_singleton img chars w h hwim hhim hw100 hh100

theorem c8_caption_from_top_edge_witness :
    (detectChartsInPage [chartImage] chartChars).map Block.dims =
      [some (150, 150)] := by
  have h :=
    c8_caption_from_top_edge chartImage chartChars 150 150 rfl rfl (by norm_num)
      (by norm_num)
  rw [h]
  rfl

/-- C9: a failure of the external table service is contained: the
method returns the empty table list together with one warning, the
failing page still yields a page entry built from its paragraphs and
charts, and every page of the document is processed. -/
theorem c9_table_failure_contained :
    (∀ (e : List Char) (p : ℕ),
        (extractTablesFromPage (Except.error e) p).1 = []
        ∧ (extractTablesFromPage (Except.error e) p).2 = [tableWarning p e])
    ∧ (∀ doc : List PageData, (parsePdf doc).length = doc.length)
    ∧ (∀ (pageNum : ℕ) (pd : PageData) (e : List Char),
        pd.camelotResult = Except.error e →
          parsePage pageNum pd =
            ⟨pageNum, analyzeContentBlocks pd.chars ++
              (detectChartsInPage pd.images pd.chars).map
                (assignContext (analyzeContentBlocks pd.chars))⟩) := by
  refine ⟨fun e p => ⟨rfl, rfl⟩, ?_, ?_⟩
  · intro doc
    unfold parsePdf
    rw [List.length_map, List.enum_length]
  · intro pageNum pd e he
    unfold parsePage
    rw [he]
    simp [extractTablesFromPage]

theorem c9_table_failure_contained_witness :
    parsePage 2 ⟨[], [], Except.error "boom".toList⟩ = ⟨2, []⟩
    ∧ (parsePdf failingDoc).length = 3 := by
  constructor
  · have h :=
      c9_table_failure_contained.2.2 2 ⟨[], [], Except.error "boom".toList⟩
        "boom".toList rfl
    rw [h]
    rfl
  · exact (c9_table_failure_contained.2.1 failingDoc).trans rfl

end PdfParser
